import Mathlib

/-!
Verification of bqplot's tick-formatting, bar/graph selection handling and
graph layout bookkeeping.

The JavaScript source is shallowly embedded: JS numbers are modelled by `ℚ`
(the claims under study concern branch structure and exact arithmetic
thresholds, not IEEE rounding), JS arrays by `List`, `null`/`undefined` by
`Option`, and JS strings by `String` manipulated through their character
lists.  `Math.floor`/`Math.ceil`/`Math.round` and the JS `%` remainder are
modelled exactly below.
-/

/-- JS truncation toward zero, as used by the `%` remainder operator. -/
def jsTrunc (q : ℚ) : ℤ := if 0 ≤ q then ⌊q⌋ else ⌈q⌉

/-- The JS remainder `x % y` (sign follows the dividend). -/
def jsRem (x y : ℚ) : ℚ := x - y * (jsTrunc (x / y) : ℚ)

/-- JS `Math.round`: round half toward positive infinity. -/
def jsRound (q : ℚ) : ℤ := ⌊q + 1 / 2⌋

/-- underscore's `_.range(a, b)` on integers: `a, a+1, ..., b-1`. -/
def jsRangeZ (a b : ℤ) : List ℤ := (List.range (b - a).toNat).map (fun (k : ℕ) => a + (k : ℤ))

/-- underscore's `_.range(0, stop, step)` on naturals (`step ≠ 0`):
`0, step, 2*step, ...` while `< stop`; its length is `⌈stop/step⌉`. -/
def jsRangeNat (stop step : ℕ) : List ℕ :=
  if step = 0 then [] else (List.range ((stop + step - 1) / step)).map (fun k => k * step)

/-- underscore's `_.range(start, stop, step)` on rationals:
`max 0 ⌈(stop-start)/step⌉` values spaced by `step` from `start`.
(For `step = 0` the JS code would fault; we return `[]`, and every theorem
touching this case assumes a nonzero step.) -/
def jsRangeQ (start stop step : ℚ) : List ℚ :=
  if step = 0 then [] else
    (List.range (max 0 ⌈(stop - start) / step⌉).toNat).map (fun (k : ℕ) => start + (k : ℚ) * step)

/-- JS `Array.prototype.indexOf`: first index of `x`, or `-1`. -/
def jsIndexOf (l : List ℤ) (x : ℤ) : ℤ := if x ∈ l then (l.indexOf x : ℤ) else -1

/-- `d3.min` on a nonempty integer array (callers guard emptiness). -/
def d3min (l : List ℤ) : ℤ :=
  match l with
  | [] => 0
  | x :: xs => xs.foldl min x

/-- `d3.max` on a nonempty integer array (callers guard emptiness). -/
def d3max (l : List ℤ) : ℤ :=
  match l with
  | [] => 0
  | x :: xs => xs.foldl max x

/-! ## GraphModel.js: `update_link_data` -/

/-- One force-layout link record, as pushed by `update_link_data`. -/
structure LinkDatum where
  source : ℕ
  target : ℕ
  value : ℚ
deriving DecidableEq

/-- Embedding of `GraphModel.update_link_data`: starting from a fresh
`link_data = []`, the nested `forEach` pushes `{source: i, target: j, value: e}`
for every non-null entry `e` of `link_matrix`. -/
def update_link_data (link_matrix : List (List (Option ℚ))) : List LinkDatum :=
  link_matrix.enum.foldl
    (fun ld p =>
      p.2.enum.foldl
        (fun ld2 q =>
          match q.2 with
          | some e => ld2 ++ [⟨p.1, q.1, e⟩]
          | none => ld2)
        ld)
    []

/-- The spec's description of the link coercion: in row-major order, exactly
one record `{source: i, target: j, value: e}` for every entry `e` at row `i`,
column `j` of the matrix that is not null, and no record for null entries. -/
def link_data_spec (m : List (List (Option ℚ))) : List LinkDatum :=
  (List.range m.length).flatMap (fun i =>
    (List.range (m.getD i []).length).flatMap (fun j =>
      match (m.getD i []).getD j none with
      | some e => [⟨i, j, e⟩]
      | none => []))

theorem inner_foldl_eq (i : ℕ) (l : List (ℕ × Option ℚ)) (acc : List LinkDatum) :
    l.foldl
      (fun ld2 q =>
        match q.2 with
        | some e => ld2 ++ [⟨i, q.1, e⟩]
        | none => ld2)
      acc
    = acc ++ l.flatMap (fun q =>
        match q.2 with
        | some e => [(⟨i, q.1, e⟩ : LinkDatum)]
        | none => []) := by
  induction l generalizing acc with
  | nil => simp
  | cons hd tl ih =>
    rcases hd with ⟨j, e⟩
    cases e <;> simp [ih]

theorem outer_foldl_eq (m : List (ℕ × List (Option ℚ))) (acc : List LinkDatum) :
    m.foldl
      (fun ld p =>
        p.2.enum.foldl
          (fun ld2 q =>
            match q.2 with
            | some e => ld2 ++ [⟨p.1, q.1, e⟩]
            | none => ld2)
          ld)
      acc
    = acc ++ m.flatMap (fun p =>
        p.2.enum.flatMap (fun q =>
          match q.2 with
          | some e => [(⟨p.1, q.1, e⟩ : LinkDatum)]
          | none => [])) := by
  induction m generalizing acc with
  | nil => simp
  | cons hd tl ih =>
    rcases hd with ⟨i, row⟩
    rw [List.foldl_cons, inner_foldl_eq, ih, List.flatMap_cons, List.append_assoc]

theorem enumFrom_eq_range_map {α : Type} (d : α) (l : List α) (n : ℕ) :
    l.enumFrom n = (List.range l.length).map (fun i => (n + i, l.getD i d)) := by
  induction l generalizing n with
  | nil => simp
  | cons a t ih =>
    rw [List.enumFrom_cons, ih (n + 1), List.length_cons, List.range_succ_eq_map,
      List.map_cons, List.map_map]
    refine congrArg₂ (· :: ·) (by simp) ?_
    apply List.map_congr_left
    intro i _
    simp only [Function.comp_apply, List.getD_cons_succ, Nat.succ_eq_add_one]
    exact congrArg₂ (·, ·) (by omega) rfl

theorem enum_eq_range_map {α : Type} (d : α) (l : List α) :
    l.enum = (List.range l.length).map (fun i => (i, l.getD i d)) := by
  rw [List.enum, enumFrom_eq_range_map d]
  simp only [Nat.zero_add]

/-- Claim C8: `update_link_data` rebuilds `link_data` from scratch to contain,
in row-major order, exactly one record `{source: i, target: j, value: e}` for
every non-null entry `e` at row `i`, column `j` of `link_matrix`, and no
record for null entries. -/
theorem c8_link_matrix_coercion (m : List (List (Option ℚ))) :
    update_link_data m = link_data_spec m := by
  unfold update_link_data link_data_spec
  rw [outer_foldl_eq, List.nil_append, enum_eq_range_map ([] : List (Option ℚ)) m,
    List.flatMap_map]
  apply List.flatMap_congr
  intro i _
  rw [enum_eq_range_map (none : Option ℚ), List.flatMap_map]

/-! ## Graph.js (src/unnamed/part_002): node click selection -/

/-- Embedding of `Graph.click_handler`: given the model's current `selected`
attribute, the clicked node index, and whether the accel key (ctrl or meta)
is held, returns the value written back to the model's `selected` attribute. -/
def click_handler (cur : Option (List ℤ)) (index : ℤ) (accelKey : Bool) :
    Option (List ℤ) :=
  let selected := cur.getD []
  let elem_index := jsIndexOf selected index
  let selected :=
    if elem_index > -1 ∧ accelKey = true then
      selected.eraseIdx elem_index.toNat
    else if accelKey = true then
      selected ++ [index]
    else
      [index]
  if selected.length = 0 then none else some selected

/-- Embedding of `Graph.reset_selection`: a background click sets the model's
`selected` attribute to null. -/
def graph_reset_selection : Option (List ℤ) := none

/-- The spec's description of the node click: with the accel key, toggle the
index's membership in the selection (remove it if present, append it if
absent); without it, replace the selection by exactly `[index]`; the model
attribute becomes null exactly when the resulting list is empty. -/
def click_spec (cur : Option (List ℤ)) (index : ℤ) (accelKey : Bool) :
    Option (List ℤ) :=
  let sel := cur.getD []
  let res :=
    if accelKey then (if index ∈ sel then sel.erase index else sel ++ [index])
    else [index]
  if res = [] then none else some res

theorem jsIndexOf_pos_iff (l : List ℤ) (x : ℤ) : jsIndexOf l x > -1 ↔ x ∈ l := by
  unfold jsIndexOf
  by_cases h : x ∈ l
  · rw [if_pos h]
    simp only [h, iff_true, gt_iff_lt]
    have h0 : (0 : ℤ) ≤ (l.indexOf x : ℤ) := Int.natCast_nonneg _
    omega
  · rw [if_neg h]
    simp only [h, iff_false, gt_iff_lt]
    omega

theorem eraseIdx_jsIndexOf (l : List ℤ) (x : ℤ) (h : x ∈ l) :
    l.eraseIdx (jsIndexOf l x).toNat = l.erase x := by
  rw [jsIndexOf, if_pos h, Int.toNat_natCast]
  exact List.eraseIdx_indexOf_eq_erase x l

theorem length_sub_one_eq_zero_iff (l : List ℤ) (x : ℤ) (h : x ∈ l) :
    l.length - 1 = 0 ↔ (l = [] ∨ l = [x]) := by
  cases l with
  | nil => simp at h
  | cons a t =>
    cases t with
    | nil =>
      simp only [List.mem_singleton] at h
      simp [h]
    | cons b u => simp

/-- Claim C6: for every click on node index `i`, `click_handler` with the
accel key held toggles `i`'s membership in the selected list, and without it
replaces the selection by exactly `[i]`; the model's `selected` attribute is
set to null exactly when the resulting list is empty, and a background click
(`reset_selection`) sets `selected` to null. -/
theorem c6_graph_node_click :
    (∀ (cur : Option (List ℤ)) (index : ℤ) (accelKey : Bool),
      click_handler cur index accelKey = click_spec cur index accelKey)
    ∧ graph_reset_selection = none := by
  refine ⟨fun cur index accelKey => ?_, rfl⟩
  cases accelKey with
  | false =>
    simp [click_handler, click_spec, List.length_eq_zero]
  | true =>
    by_cases hmem : index ∈ cur.getD []
    · have hidx := (jsIndexOf_pos_iff (cur.getD []) index).mpr hmem
      simp [click_handler, click_spec, hmem, hidx, eraseIdx_jsIndexOf _ _ hmem,
        List.length_eq_zero, length_sub_one_eq_zero_iff _ _ hmem]
    · have hidx : ¬ (jsIndexOf (cur.getD []) index > -1) := by
        rw [jsIndexOf_pos_iff]
        exact hmem
      simp [click_handler, click_spec, hmem, hidx, List.length_eq_zero]

/-! ## Bars.js (src/unnamed/part_000): bar click selection -/

theorem mem_jsRangeZ (a b k : ℤ) : k ∈ jsRangeZ a b ↔ a ≤ k ∧ k < b := by
  unfold jsRangeZ
  constructor
  · intro hmem
    obtain ⟨j, hj, hk⟩ := List.mem_map.mp hmem
    have hj2 := List.mem_range.mp hj
    omega
  · intro h
    exact List.mem_map.mpr ⟨(k - a).toNat, List.mem_range.mpr (by omega), by omega⟩

theorem foldl_min_le (l : List ℤ) (a : ℤ) :
    l.foldl min a ≤ a ∧ ∀ y ∈ l, l.foldl min a ≤ y := by
  induction l generalizing a with
  | nil => simp
  | cons h t ih =>
    refine ⟨le_trans (ih (min a h)).1 (min_le_left _ _), ?_⟩
    intro y hy
    rcases List.mem_cons.mp hy with rfl | hy
    · exact le_trans (ih (min a y)).1 (min_le_right _ _)
    · exact (ih (min a h)).2 y hy

theorem le_foldl_max (l : List ℤ) (a : ℤ) :
    a ≤ l.foldl max a ∧ ∀ y ∈ l, y ≤ l.foldl max a := by
  induction l generalizing a with
  | nil => simp
  | cons h t ih =>
    refine ⟨le_trans (le_max_left _ _) (ih (max a h)).1, ?_⟩
    intro y hy
    rcases List.mem_cons.mp hy with rfl | hy
    · exact le_trans (le_max_right _ _) (ih (max a y)).1
    · exact (ih (max a h)).2 y hy

theorem d3min_le (l : List ℤ) (y : ℤ) (hy : y ∈ l) : d3min l ≤ y := by
  cases l with
  | nil => simp at hy
  | cons x xs =>
    rcases List.mem_cons.mp hy with rfl | hy
    · exact (foldl_min_le xs y).1
    · exact (foldl_min_le xs x).2 y hy

theorem le_d3max (l : List ℤ) (y : ℤ) (hy : y ∈ l) : y ≤ d3max l := by
  cases l with
  | nil => simp at hy
  | cons x xs =>
    rcases List.mem_cons.mp hy with rfl | hy
    · exact (le_foldl_max xs y).1
    · exact (le_foldl_max xs x).2 y hy

theorem d3min_le_d3max (l : List ℤ) (h : l ≠ []) : d3min l ≤ d3max l := by
  cases l with
  | nil => exact absurd rfl h
  | cons x xs =>
    exact le_trans (d3min_le _ x (List.mem_cons_self x xs))
      (le_d3max _ x (List.mem_cons_self x xs))

/-- The model write performed at the end of a selection handler:
`(list.length == 0) ? null : list`. -/
def set_model (l : List ℤ) : Option (List ℤ) := if l.length = 0 then none else some l

/-- Embedding of `Bars.bar_click_handler`.  Arguments: `select_bars` flag, the
model's current `idx_selected` attribute, `mark_data.length`, the clicked bar
index, and the two modifier keys.  Returns `none` when the handler performs no
model write (handler disabled, or the shift-with-already-selected early
return); otherwise `some (idx_selected, model_value)` — the final local
`idx_selected` list and the value written to the model's `idx_selected`
attribute. -/
def bar_click_handler (select_bars : Bool) (cur : Option (List ℤ)) (mark_data_len : ℤ)
    (index : ℤ) (ctrlKey shiftKey : Bool) : Option (List ℤ × Option (List ℤ)) :=
  if select_bars = false then none else
  let idx_selected := cur.getD []
  let elem_index := jsIndexOf idx_selected index
  if elem_index > -1 ∧ ctrlKey = true then
    let l := idx_selected.eraseIdx elem_index.toNat
    some (l, set_model l)
  else if shiftKey = true then
    if elem_index > -1 then none
    else
      let min_index := if idx_selected.length ≠ 0 then d3min idx_selected else -1
      let max_index := if idx_selected.length ≠ 0 then d3max idx_selected else mark_data_len
      let l0 :=
        if index > max_index then idx_selected ++ jsRangeZ (max_index + 1) index
        else if index < min_index then idx_selected ++ jsRangeZ (index + 1) min_index
        else idx_selected
      let l := l0 ++ [index]
      some (l, set_model l)
  else if ctrlKey = false then
    let l := ([] : List ℤ) ++ [index]
    some (l, set_model l)
  else
    let l := idx_selected ++ [index]
    some (l, set_model l)

/-- Embedding of `Bars.reset_selection` (with `select_bars` enabled): the
model's `idx_selected` attribute is set to null. -/
def bars_reset_selection : Option (List ℤ) := none

/-- The indices the spec says a shift-click appends before the clicked index:
all indices strictly between the current selection's extreme (max if the
clicked index is above it, min if below) and the clicked index. -/
def shift_fill (sel : List ℤ) (index : ℤ) : List ℤ :=
  if sel = [] then []
  else if index > d3max sel then jsRangeZ (d3max sel + 1) index
  else if index < d3min sel then jsRangeZ (index + 1) (d3min sel)
  else []

/-- Claim C2: with `select_bars` enabled, a click on bar `index` (i) removes an
already-selected index when ctrl is held, (ii) leaves the selection unchanged
(no model write) on shift-click of a selected index, (iii) on shift-click of
an unselected index appends exactly the indices strictly between the current
selection's extreme and the clicked index, then the index itself, (iv) with
neither ctrl nor shift replaces the selection by `[index]`, and (v) the model
attribute is set to null exactly when the resulting list is empty. -/
theorem c2_bar_click_selection :
    ∀ (cur : Option (List ℤ)) (mark_len index : ℤ) (ctrlKey shiftKey : Bool),
      (index ∈ cur.getD [] → ctrlKey = true →
        ∃ m, bar_click_handler true cur mark_len index ctrlKey shiftKey
          = some ((cur.getD []).erase index, m))
      ∧ (shiftKey = true → ctrlKey = false → index ∈ cur.getD [] →
        bar_click_handler true cur mark_len index ctrlKey shiftKey = none)
      ∧ (shiftKey = true → index ∉ cur.getD [] → 0 ≤ index → index ≤ mark_len →
        ∃ m, bar_click_handler true cur mark_len index ctrlKey shiftKey
          = some (cur.getD [] ++ shift_fill (cur.getD []) index ++ [index], m))
      ∧ (∀ k : ℤ, k ∈ shift_fill (cur.getD []) index ↔
          (cur.getD [] ≠ [] ∧ ((d3max (cur.getD []) < k ∧ k < index)
            ∨ (index < k ∧ k < d3min (cur.getD [])))))
      ∧ (ctrlKey = false → shiftKey = false →
        ∃ m, bar_click_handler true cur mark_len index ctrlKey shiftKey
          = some ([index], m))
      ∧ (∀ r, bar_click_handler true cur mark_len index ctrlKey shiftKey = some r →
          (r.2 = none ↔ r.1 = [])) := by
  intro cur mark_len index ctrlKey shiftKey
  have hsm : ∀ l : List ℤ, (set_model l = none ↔ l = []) := by
    intro l
    unfold set_model
    split_ifs with h
    · simp [List.length_eq_zero.mp h]
    · have : l ≠ [] := fun hc => h (by simp [hc])
      simp [this]
  refine ⟨?_, ?_, ?_, ?_, ?_, ?_⟩
  · intro hmem hctrl
    refine ⟨set_model ((cur.getD []).erase index), ?_⟩
    simp only [bar_click_handler]
    rw [if_neg (by decide), if_pos ⟨(jsIndexOf_pos_iff _ _).mpr hmem, hctrl⟩,
      eraseIdx_jsIndexOf _ _ hmem]
  · intro hshift hctrl hmem
    simp only [bar_click_handler]
    rw [if_neg (by decide),
      if_neg (by rw [hctrl]; rintro ⟨h1, h2⟩; cases h2),
      if_pos hshift, if_pos ((jsIndexOf_pos_iff _ _).mpr hmem)]
  · intro hshift hnmem h0 hlen
    have hidx : ¬ (jsIndexOf (cur.getD []) index > -1) := by
      rw [jsIndexOf_pos_iff]
      exact hnmem
    refine ⟨set_model (cur.getD [] ++ shift_fill (cur.getD []) index ++ [index]), ?_⟩
    simp only [bar_click_handler]
    rw [if_neg (by decide), if_neg (fun hc => hidx hc.1), if_pos hshift, if_neg hidx]
    by_cases hsel : cur.getD [] = []
    · rw [shift_fill, if_pos hsel, hsel]
      simp only [List.length_nil, ne_eq, not_true_eq_false, if_false, ite_false]
      rw [if_neg (by omega), if_neg (by omega)]
      simp
    · have hlen0 : (cur.getD []).length ≠ 0 := fun hc => hsel (List.length_eq_zero.mp hc)
      rw [shift_fill, if_neg hsel]
      simp only [if_pos hlen0]
      by_cases hgt : index > d3max (cur.getD [])
      · rw [if_pos hgt, if_pos hgt, List.append_assoc]
      · rw [if_neg hgt, if_neg hgt]
        by_cases hlt : index < d3min (cur.getD [])
        · rw [if_pos hlt, if_pos hlt, List.append_assoc]
        · rw [if_neg hlt, if_neg hlt]
          simp
  · intro k
    unfold shift_fill
    by_cases hsel : cur.getD [] = []
    · simp [hsel]
    · have hmm := d3min_le_d3max _ hsel
      rw [if_neg hsel]
      by_cases hgt : index > d3max (cur.getD [])
      · rw [if_pos hgt, mem_jsRangeZ]
        constructor
        · intro h
          exact ⟨hsel, Or.inl ⟨by omega, h.2⟩⟩
        · rintro ⟨-, (⟨h1, h2⟩ | ⟨h1, h2⟩)⟩
          · omega
          · omega
      · rw [if_neg hgt]
        by_cases hlt : index < d3min (cur.getD [])
        · rw [if_pos hlt, mem_jsRangeZ]
          constructor
          · intro h
            exact ⟨hsel, Or.inr ⟨by omega, by omega⟩⟩
          · rintro ⟨-, (⟨h1, h2⟩ | ⟨h1, h2⟩)⟩
            · omega
            · omega
        · rw [if_neg hlt]
          simp only [List.not_mem_nil, false_iff]
          rintro ⟨-, (⟨h1, h2⟩ | ⟨h1, h2⟩)⟩
          · omega
          · omega
  · intro hctrl hshift
    refine ⟨set_model [index], ?_⟩
    simp only [bar_click_handler]
    rw [if_neg (by decide),
      if_neg (by rw [hctrl]; rintro ⟨h1, h2⟩; cases h2),
      if_neg (by rw [hshift]; rintro h; cases h),
      if_pos hctrl]
    rfl
  · intro r hr
    simp only [bar_click_handler] at hr
    rw [if_neg (by decide)] at hr
    split_ifs at hr <;>
      first
      | (exact Option.noConfusion hr)
      | (obtain rfl := Option.some.inj hr
         simp [hsm])

/-- Witness for C2 at concrete inputs: selection `[1, 2]`, five bars. -/
theorem c2_bar_click_selection_witness :
    (∃ m, bar_click_handler true (some [1, 2]) 5 2 true false
      = some (((some [1, 2] : Option (List ℤ)).getD []).erase 2, m))
    ∧ bar_click_handler true (some [1, 2]) 5 1 false true = none
    ∧ (∃ m, bar_click_handler true (some [1, 2]) 5 4 false true
      = some ((some [1, 2] : Option (List ℤ)).getD []
          ++ shift_fill ((some [1, 2] : Option (List ℤ)).getD []) 4 ++ [4], m))
    ∧ (∃ m, bar_click_handler true (some [1, 2]) 5 3 false false = some ([3], m))
    ∧ ((([1] : List ℤ), set_model [1]).2 = none ↔ (([1] : List ℤ), set_model [1]).1 = []) := by
  refine ⟨(c2_bar_click_selection (some [1, 2]) 5 2 true false).1 (by decide) rfl,
    (c2_bar_click_selection (some [1, 2]) 5 1 false true).2.1 rfl rfl (by decide),
    (c2_bar_click_selection (some [1, 2]) 5 4 false true).2.2.1 rfl (by decide)
      (by decide) (by decide),
    (c2_bar_click_selection (some [1, 2]) 5 3 false false).2.2.2.2.1 rfl rfl,
    (c2_bar_click_selection (some [1, 2]) 5 2 true false).2.2.2.2.2
      ([1], set_model [1]) (by decide)⟩

/-! ## Graph.js: force-layout node pinning in `draw` / `update_position` -/

/-- A scale view as used by the Graph mark: the d3 scale function and the
view's pixel offset. -/
structure ScaleView where
  scale : ℚ → ℚ
  offset : ℚ

/-- The mutable per-node state touched by `draw`/`update_position`: data
coordinates, pixel coordinates, and the force-layout `fixed` flag. -/
structure GraphNode where
  x : ℚ
  y : ℚ
  x_px : ℚ
  y_px : ℚ
  fixed : Bool

instance : Inhabited GraphNode := ⟨⟨0, 0, 0, 0, false⟩⟩

/-- The x-scale loop shared by `draw` and `update_position`: when an x scale
view exists, set `d.x_px = x_scale.scale(d.x) + x_scale.offset` and
`d.fixed = true` on every node. -/
def apply_x_scale (xs : Option ScaleView) (nodes : List GraphNode) : List GraphNode :=
  match xs with
  | none => nodes
  | some s => nodes.map (fun d => { d with x_px := s.scale d.x + s.offset, fixed := true })

/-- The y-scale loop shared by `draw` and `update_position`: when a y scale
view exists, set `d.y_px = y_scale.scale(d.y) + y_scale.offset` on every
node (the `fixed` flag is not touched). -/
def apply_y_scale (ys : Option ScaleView) (nodes : List GraphNode) : List GraphNode :=
  match ys with
  | none => nodes
  | some s => nodes.map (fun d => { d with y_px := s.scale d.y + s.offset })

/-- Embedding of the node-state effect of `Graph.update_position` (the
subsequent force-layout restart renders; it does not change these fields
before the simulation ticks). -/
def update_position (xs ys : Option ScaleView) (nodes : List GraphNode) : List GraphNode :=
  apply_y_scale ys (apply_x_scale xs nodes)

/-- Embedding of the node-state effect of `Graph.draw`, whose two
scale-application loops are identical to `update_position`'s. -/
def draw (xs ys : Option ScaleView) (nodes : List GraphNode) : List GraphNode :=
  apply_y_scale ys (apply_x_scale xs nodes)

theorem getD_map_of_lt (f : GraphNode → GraphNode) (l : List GraphNode) (i : ℕ)
    (hl : i < l.length) : (l.map f).getD i default = f (l.getD i default) := by
  rw [List.getD_eq_getElem _ _ (by simpa using hl), List.getElem_map,
    List.getD_eq_getElem _ _ hl]

/-- Claim C7: whenever the Graph mark has an x scale view, `draw` and
`update_position` set every node's `x_px` to `x_scale.scale(d.x) +
x_scale.offset` and mark the node `fixed = true`; whenever a y scale view
exists they set `y_px` likewise; and with no x scale (e.g. only a y scale)
the `fixed` flag of every node is left as it was. -/
theorem c7_force_node_pinning :
    ∀ (xs ys : Option ScaleView) (nodes : List GraphNode) (i : ℕ),
      i < nodes.length →
      (∀ sx, xs = some sx →
        (((update_position xs ys nodes).getD i default).x_px
            = sx.scale ((nodes.getD i default).x) + sx.offset
          ∧ ((update_position xs ys nodes).getD i default).fixed = true)
        ∧ (((draw xs ys nodes).getD i default).x_px
            = sx.scale ((nodes.getD i default).x) + sx.offset
          ∧ ((draw xs ys nodes).getD i default).fixed = true))
      ∧ (∀ sy, ys = some sy →
          ((update_position xs ys nodes).getD i default).y_px
            = sy.scale ((nodes.getD i default).y) + sy.offset
          ∧ ((draw xs ys nodes).getD i default).y_px
            = sy.scale ((nodes.getD i default).y) + sy.offset)
      ∧ (xs = none →
          ((update_position xs ys nodes).getD i default).fixed
            = ((nodes.getD i default)).fixed
          ∧ ((draw xs ys nodes).getD i default).fixed
            = ((nodes.getD i default)).fixed) := by
  intro xs ys nodes i hi
  refine ⟨?_, ?_, ?_⟩
  · rintro sx rfl
    cases ys with
    | none =>
      simp only [update_position, draw, apply_y_scale, apply_x_scale]
      rw [getD_map_of_lt _ _ _ hi]
      exact ⟨⟨rfl, rfl⟩, rfl, rfl⟩
    | some sy =>
      simp only [update_position, draw, apply_y_scale, apply_x_scale]
      rw [getD_map_of_lt _ _ _ (by simpa using hi), getD_map_of_lt _ _ _ hi]
      exact ⟨⟨rfl, rfl⟩, rfl, rfl⟩
  · rintro sy rfl
    cases xs with
    | none =>
      simp only [update_position, draw, apply_y_scale, apply_x_scale]
      rw [getD_map_of_lt _ _ _ hi]
      exact ⟨rfl, rfl⟩
    | some sx =>
      simp only [update_position, draw, apply_y_scale, apply_x_scale]
      rw [getD_map_of_lt _ _ _ (by simpa using hi), getD_map_of_lt _ _ _ hi]
      exact ⟨rfl, rfl⟩
  · rintro rfl
    cases ys with
    | none => exact ⟨rfl, rfl⟩
    | some sy =>
      simp only [update_position, draw, apply_y_scale, apply_x_scale]
      rw [getD_map_of_lt _ _ _ hi]
      exact ⟨rfl, rfl⟩

/-- Witness for C7 on a single concrete node with scale `q ↦ 2q`, offset 3. -/
theorem c7_force_node_pinning_witness :
    ((update_position (some ⟨fun q => 2 * q, 3⟩) none [⟨1, 2, 0, 0, false⟩]).getD 0 default).x_px
      = 5
    ∧ ((update_position (some ⟨fun q => 2 * q, 3⟩) none [⟨1, 2, 0, 0, false⟩]).getD 0 default).fixed
      = true
    ∧ ((update_position none (some ⟨fun q => 2 * q, 3⟩) [⟨1, 2, 0, 0, false⟩]).getD 0 default).fixed
      = false := by
  have h1 := (c7_force_node_pinning (some ⟨fun q => 2 * q, 3⟩) none
    [⟨1, 2, 0, 0, false⟩] 0 (by norm_num)).1 ⟨fun q => 2 * q, 3⟩ rfl
  have h3 := (c7_force_node_pinning none (some ⟨fun q => 2 * q, 3⟩)
    [⟨1, 2, 0, 0, false⟩] 0 (by norm_num)).2.2 rfl
  refine ⟨?_, h1.1.2, ?_⟩
  · rw [h1.1.1]
    norm_num
  · rw [h3.1]
    rfl

/-! ## Invariant: model selection attributes are never an empty list -/

theorem set_model_ne_nil (l m : List ℤ) (h : set_model l = some m) : m ≠ [] := by
  unfold set_model at h
  split_ifs at h with hl
  all_goals
    first
    | exact Option.noConfusion h
    | (obtain rfl := Option.some.inj h
       exact fun hc => hl (by simp [hc]))

theorem bar_click_handler_model_shape (sb : Bool) (cur : Option (List ℤ))
    (mark_len index : ℤ) (ctrlKey shiftKey : Bool) (r : List ℤ × Option (List ℤ))
    (h : bar_click_handler sb cur mark_len index ctrlKey shiftKey = some r) :
    r.2 = set_model r.1 := by
  simp only [bar_click_handler] at h
  split_ifs at h <;>
    first
    | (exact Option.noConfusion h)
    | (obtain rfl := Option.some.inj h
       rfl)

theorem click_handler_some_ne_nil (cur : Option (List ℤ)) (index : ℤ)
    (accelKey : Bool) (l : List ℤ) (h : click_handler cur index accelKey = some l) :
    l ≠ [] := by
  simp only [click_handler] at h
  split_ifs at h
  all_goals
    first
    | exact Option.noConfusion h
    | (obtain rfl := Option.some.inj h
       intro hc
       simp [hc] at *)

/-- Claim C10: after every bar click, node click, or background-click reset,
the Bars model's `idx_selected` and the Graph model's `selected` attributes
are either null or a non-empty list: assuming the attribute satisfied this
before the event, it still does after (every handler replaces an empty list
by null before writing). -/
theorem c10_selection_nonempty_invariant :
    ∀ (cur : Option (List ℤ)) (mark_len index : ℤ) (ctrlKey shiftKey accelKey sb : Bool),
      (∀ l, cur = some l → l ≠ []) →
      (∀ l, (match bar_click_handler sb cur mark_len index ctrlKey shiftKey with
             | none => cur
             | some r => r.2) = some l → l ≠ [])
      ∧ (∀ l, click_handler cur index accelKey = some l → l ≠ [])
      ∧ bars_reset_selection = none
      ∧ graph_reset_selection = none := by
  intro cur mark_len index ctrlKey shiftKey accelKey sb hinv
  refine ⟨?_, ?_, rfl, rfl⟩
  · intro l
    cases hb : bar_click_handler sb cur mark_len index ctrlKey shiftKey with
    | none =>
      simp only
      exact hinv l
    | some r =>
      simp only
      intro hl
      refine set_model_ne_nil r.1 l ?_
      rw [← bar_click_handler_model_shape sb cur mark_len index ctrlKey shiftKey r hb]
      exact hl
  · exact click_handler_some_ne_nil cur index accelKey

/-- Witness for C10: starting from the non-empty selection `[5]`. -/
theorem c10_selection_nonempty_invariant_witness :
    (∀ l : List ℤ, (some [5] : Option (List ℤ)) = some l → l ≠ [])
    ∧ (∀ l, (match bar_click_handler true (some [5]) 3 0 true false with
             | none => (some [5] : Option (List ℤ))
             | some r => r.2) = some l → l ≠ [])
    ∧ (∀ l, click_handler (some [5]) 0 true = some l → l ≠ []) := by
  have hinv : ∀ l : List ℤ, (some [5] : Option (List ℤ)) = some l → l ≠ [] := by
    intro l h
    cases h
    decide
  have h := c10_selection_nonempty_invariant (some [5]) 3 0 true false true true hinv
  exact ⟨hinv, h.1, h.2.1⟩

/-! ## TickFormatter.js: `date_sc_format` -/

/-- The tick predicates appearing in `date_sc_format`'s multi-format entries
(`d3.time.format.multi` guards), represented symbolically. -/
inductive DatePred where
  | pMillis
  | pSeconds
  | pMinutes
  | pHours
  | pDate1
  | pMonth
  | pAlways
deriving DecidableEq

/-- Embedding of `date_sc_format`: the ticks are date values in milliseconds
since the epoch; the successive divisors are `1000`, `*60`, `*60`, `*24`,
`*27`, `*12`. -/
def date_sc_format (ticks : List ℚ) : List (String × DatePred) :=
  let diff := |ticks.getD 1 0 - ticks.getD 0 0|
  if ⌊diff / 1000⌋ = 0 then
    [(".%L", DatePred.pMillis), (":%S", DatePred.pSeconds), ("%I:%M", DatePred.pAlways)]
  else if ⌊diff / 60000⌋ = 0 then
    [(":%S", DatePred.pSeconds), ("%I:%M", DatePred.pAlways)]
  else if ⌊diff / 3600000⌋ = 0 then
    [("%I:%M", DatePred.pMinutes), ("%I %p", DatePred.pAlways)]
  else if ⌊diff / 86400000⌋ = 0 then
    [("%I %p", DatePred.pHours), ("%b %d", DatePred.pAlways)]
  else if ⌊diff / 2332800000⌋ = 0 then
    [("%b %d", DatePred.pDate1), ("%b %Y", DatePred.pAlways)]
  else if ⌊diff / 27993600000⌋ = 0 then
    [("%b %d", DatePred.pDate1), ("%b %Y", DatePred.pAlways)]
  else
    [("%b %d", DatePred.pDate1), ("%b %Y", DatePred.pMonth), ("%Y", DatePred.pAlways)]

/-- The spec's description: the format is chosen solely from the gap by
successive thresholds of one second, minute, hour, day, 27 days and 12 of
those. -/
def date_format_spec (diff : ℚ) : List (String × DatePred) :=
  if diff < 1000 then
    [(".%L", DatePred.pMillis), (":%S", DatePred.pSeconds), ("%I:%M", DatePred.pAlways)]
  else if diff < 60000 then
    [(":%S", DatePred.pSeconds), ("%I:%M", DatePred.pAlways)]
  else if diff < 3600000 then
    [("%I:%M", DatePred.pMinutes), ("%I %p", DatePred.pAlways)]
  else if diff < 86400000 then
    [("%I %p", DatePred.pHours), ("%b %d", DatePred.pAlways)]
  else if diff < 2332800000 then
    [("%b %d", DatePred.pDate1), ("%b %Y", DatePred.pAlways)]
  else if diff < 27993600000 then
    [("%b %d", DatePred.pDate1), ("%b %Y", DatePred.pAlways)]
  else
    [("%b %d", DatePred.pDate1), ("%b %Y", DatePred.pMonth), ("%Y", DatePred.pAlways)]

theorem floor_div_eq_zero_iff (d c : ℚ) (hd : 0 ≤ d) (hc : 0 < c) :
    ⌊d / c⌋ = 0 ↔ d < c := by
  rw [Int.floor_eq_zero_iff, Set.mem_Ico]
  constructor
  · intro h
    have h2 := h.2
    rwa [div_lt_one hc] at h2
  · intro h
    exact ⟨div_nonneg hd hc.le, (div_lt_one hc).mpr h⟩

/-- Claim C5: for every tick list with at least two entries, `date_sc_format`
picks its result solely from the gap `|ticks[1] - ticks[0]|` by the successive
thresholds 1 s, 1 min, 1 h, 1 day, 27 days, and 12 of those; it returns the
millisecond/second format below one second; and the less-than-a-month and
less-than-a-year cases return the identical format pair. -/
theorem c5_date_threshold_ladder :
    (∀ ticks : List ℚ, 2 ≤ ticks.length →
      date_sc_format ticks = date_format_spec |ticks.getD 1 0 - ticks.getD 0 0|)
    ∧ (∀ d : ℚ, 0 ≤ d → d < 1000 →
      date_format_spec d
        = [(".%L", DatePred.pMillis), (":%S", DatePred.pSeconds), ("%I:%M", DatePred.pAlways)])
    ∧ (∀ d1 d2 : ℚ, 86400000 ≤ d1 → d1 < 2332800000 → 2332800000 ≤ d2 →
      d2 < 27993600000 → date_format_spec d1 = date_format_spec d2) := by
  refine ⟨?_, ?_, ?_⟩
  · intro ticks _
    simp only [date_sc_format, date_format_spec]
    have hd : (0 : ℚ) ≤ |ticks.getD 1 0 - ticks.getD 0 0| := abs_nonneg _
    set d := |ticks.getD 1 0 - ticks.getD 0 0| with hdd
    by_cases h1 : d < 1000
    · rw [if_pos ((floor_div_eq_zero_iff _ _ hd (by norm_num)).mpr h1), if_pos h1]
    · rw [if_neg (fun hc => h1 ((floor_div_eq_zero_iff _ _ hd (by norm_num)).mp hc)),
        if_neg h1]
      by_cases h2 : d < 60000
      · rw [if_pos ((floor_div_eq_zero_iff _ _ hd (by norm_num)).mpr h2), if_pos h2]
      · rw [if_neg (fun hc => h2 ((floor_div_eq_zero_iff _ _ hd (by norm_num)).mp hc)),
          if_neg h2]
        by_cases h3 : d < 3600000
        · rw [if_pos ((floor_div_eq_zero_iff _ _ hd (by norm_num)).mpr h3), if_pos h3]
        · rw [if_neg (fun hc => h3 ((floor_div_eq_zero_iff _ _ hd (by norm_num)).mp hc)),
            if_neg h3]
          by_cases h4 : d < 86400000
          · rw [if_pos ((floor_div_eq_zero_iff _ _ hd (by norm_num)).mpr h4), if_pos h4]
          · rw [if_neg (fun hc => h4 ((floor_div_eq_zero_iff _ _ hd (by norm_num)).mp hc)),
              if_neg h4]
            by_cases h5 : d < 2332800000
            · rw [if_pos ((floor_div_eq_zero_iff _ _ hd (by norm_num)).mpr h5), if_pos h5]
            · rw [if_neg (fun hc => h5 ((floor_div_eq_zero_iff _ _ hd (by norm_num)).mp hc)),
                if_neg h5]
              by_cases h6 : d < 27993600000
              · rw [if_pos ((floor_div_eq_zero_iff _ _ hd (by norm_num)).mpr h6), if_pos h6]
              · rw [if_neg (fun hc => h6 ((floor_div_eq_zero_iff _ _ hd (by norm_num)).mp hc)),
                  if_neg h6]
  · intro d h0 h1
    simp only [date_format_spec]
    rw [if_pos h1]
  · intro d1 d2 ha hb hc hd
    simp only [date_format_spec]
    rw [if_neg (by linarith), if_neg (by linarith), if_neg (by linarith),
      if_neg (by linarith), if_pos hb, if_neg (by linarith), if_neg (by linarith),
      if_neg (by linarith), if_neg (by linarith), if_neg (by linarith), if_pos hd]

/-- Witness for C5: gap of 500 ms, and the month/year boundary gaps. -/
theorem c5_date_threshold_ladder_witness :
    date_sc_format [0, 500] = date_format_spec |([0, 500] : List ℚ).getD 1 0 - ([0, 500] : List ℚ).getD 0 0|
    ∧ date_format_spec 500
      = [(".%L", DatePred.pMillis), (":%S", DatePred.pSeconds), ("%I:%M", DatePred.pAlways)]
    ∧ date_format_spec 86400000 = date_format_spec 2332800000 := by
  refine ⟨c5_date_threshold_ladder.1 [0, 500] (by norm_num),
    c5_date_threshold_ladder.2.1 500 (by norm_num) (by norm_num),
    c5_date_threshold_ladder.2.2 86400000 2332800000 (by norm_num) (by norm_num)
      (by norm_num) (by norm_num)⟩

/-! ## TickFormatter.js: `get_ticks` -/
/-- The scale `model.type` strings compared by TickFormatter.js. -/
inductive ScaleType where
  | ordinal
  | log
  | linear
  | date
  | date_color_linear
deriving DecidableEq

/-- Embedding of `get_ticks`.  For ordinal scales the data array is replaced
by the scale's domain.  For date scales the source converts the domain
end-points to epoch milliseconds and back; with dates already modelled as
millisecond rationals this is the identity, so the date and non-date ramp
branches coincide here. -/
def get_ticks (scale_type : ScaleType) (scale_domain : List ℚ)
    (data_array0 : Option (List ℚ)) (num_ticks : ℤ) : List ℚ :=
  let data_array := if scale_type = ScaleType.ordinal then some scale_domain else data_array0
  if num_ticks < 2 then []
  else
    match data_array with
    | some arr =>
      if (arr.length : ℤ) ≤ num_ticks then arr
      else
        let step : ℕ := arr.length / (num_ticks - 1).toNat
        (jsRangeNat arr.length step).map (fun i => arr.getD i 0)
    | none =>
      let max_index := scale_domain.length - 1
      let d0 := scale_domain.getD 0 0
      let dl := scale_domain.getD max_index 0
      let step : ℚ := (dl - d0) / ((num_ticks : ℚ) - 1)
      jsRangeQ d0 (dl + step * (1 / 2)) step

theorem mem_jsRangeNat (stop step j : ℕ) (hs : step ≠ 0) :
    j ∈ jsRangeNat stop step ↔ (∃ k, j = k * step) ∧ j < stop := by
  unfold jsRangeNat
  rw [if_neg hs]
  constructor
  · intro hj
    obtain ⟨k, hk, rfl⟩ := List.mem_map.mp hj
    have hk2 := List.mem_range.mp hk
    refine ⟨⟨k, rfl⟩, ?_⟩
    have hpos : 0 < step := Nat.pos_of_ne_zero hs
    have h1 : (k + 1) * step ≤ ((stop + step - 1) / step) * step :=
      Nat.mul_le_mul_right _ (by omega)
    have h2 : ((stop + step - 1) / step) * step ≤ stop + step - 1 :=
      Nat.div_mul_le_self _ _
    have h3 : (k + 1) * step = k * step + step := by ring
    omega
  · rintro ⟨⟨k, rfl⟩, hlt⟩
    refine List.mem_map.mpr ⟨k, List.mem_range.mpr ?_, rfl⟩
    have hpos : 0 < step := Nat.pos_of_ne_zero hs
    have h3 : (k + 1) * step = k * step + step := by ring
    have h4 : (k + 1) * step ≤ stop + step - 1 := by omega
    have h5 : k + 1 ≤ (stop + step - 1) / step := (Nat.le_div_iff_mul_le hpos).mpr h4
    omega

theorem jsRangeQ_getD (s e st : ℚ) (hst : st ≠ 0) (k : ℕ)
    (hk : k < (jsRangeQ s e st).length) :
    (jsRangeQ s e st).getD k 0 = s + (k : ℚ) * st := by
  unfold jsRangeQ at hk ⊢
  rw [if_neg hst] at hk ⊢
  rw [List.getD_eq_getElem _ _ hk, List.getElem_map, List.getElem_range]

theorem jsRangeQ_length_iff (s e st : ℚ) (hst : 0 < st) (k : ℕ) :
    k < (jsRangeQ s e st).length ↔ s + (k : ℚ) * st < e := by
  unfold jsRangeQ
  rw [if_neg (ne_of_gt hst)]
  rw [List.length_map, List.length_range]
  have hmax : (max 0 ⌈(e - s) / st⌉).toNat = ⌈(e - s) / st⌉.toNat := by
    rcases le_total 0 ⌈(e - s) / st⌉ with h | h
    · rw [max_eq_right h]
    · rw [max_eq_left h]
      omega
  rw [hmax, Int.lt_toNat, Int.lt_ceil]
  push_cast
  rw [lt_div_iff₀ hst]
  constructor
  · intro h
    linarith
  · intro h
    linarith

/-- Claim C4: `get_ticks` returns `[]` for `num_ticks < 2`; returns the data
array (or ordinal domain) unchanged when its length is at most `num_ticks`;
for longer arrays returns the elements at indices `0, step, 2*step, ...`
with `step = ⌊length / (num_ticks - 1)⌋` (the membership characterisation
identifies these as exactly the multiples of `step` below `length`); and for
non-ordinal scales without a data array returns the arithmetic ramp from
`domain[0]` stepping by `(domain[last] - domain[0]) / (num_ticks - 1)` up to
`domain[last] + step/2`. -/
theorem c4_get_ticks_subsampling :
    ∀ (st : ScaleType) (dom : List ℚ) (da : Option (List ℚ)) (nt : ℤ),
      (nt < 2 → get_ticks st dom da nt = [])
      ∧ (∀ arr, st ≠ ScaleType.ordinal → 2 ≤ nt → (arr.length : ℤ) ≤ nt →
          get_ticks st dom (some arr) nt = arr)
      ∧ (st = ScaleType.ordinal → 2 ≤ nt → (dom.length : ℤ) ≤ nt →
          get_ticks st dom da nt = dom)
      ∧ (∀ arr, st ≠ ScaleType.ordinal → 2 ≤ nt → nt < (arr.length : ℤ) →
          get_ticks st dom (some arr) nt
            = (jsRangeNat arr.length (arr.length / (nt - 1).toNat)).map (fun i => arr.getD i 0)
          ∧ (∀ j : ℕ,
              j ∈ jsRangeNat arr.length (arr.length / (nt - 1).toNat)
                ↔ ((∃ k, j = k * (arr.length / (nt - 1).toNat)) ∧ j < arr.length)))
      ∧ (st ≠ ScaleType.ordinal → 2 ≤ nt →
          dom.getD 0 0 < dom.getD (dom.length - 1) 0 →
          (∀ k : ℕ, k < (get_ticks st dom none nt).length →
            (get_ticks st dom none nt).getD k 0
              = dom.getD 0 0
                + (k : ℚ) * ((dom.getD (dom.length - 1) 0 - dom.getD 0 0) / ((nt : ℚ) - 1)))
          ∧ (∀ k : ℕ, k < (get_ticks st dom none nt).length
              ↔ dom.getD 0 0
                  + (k : ℚ) * ((dom.getD (dom.length - 1) 0 - dom.getD 0 0) / ((nt : ℚ) - 1))
                < dom.getD (dom.length - 1) 0
                  + ((dom.getD (dom.length - 1) 0 - dom.getD 0 0) / ((nt : ℚ) - 1)) * (1 / 2))) := by
  intro st dom da nt
  refine ⟨?_, ?_, ?_, ?_, ?_⟩
  · intro h
    simp only [get_ticks]
    rw [if_pos h]
  · intro arr hst hnt hlen
    simp only [get_ticks]
    rw [if_neg hst, if_neg (by omega)]
    dsimp only
    rw [if_pos hlen]
  · intro hst hnt hlen
    simp only [get_ticks]
    rw [if_pos hst, if_neg (by omega)]
    dsimp only
    rw [if_pos hlen]
  · intro arr hst hnt hlen
    constructor
    · simp only [get_ticks]
      rw [if_neg hst, if_neg (by omega)]
      dsimp only
      rw [if_neg (by omega)]
    · intro j
      refine mem_jsRangeNat _ _ j ?_
      have hpos : 0 < (nt - 1).toNat := by omega
      have hle : (nt - 1).toNat ≤ arr.length := by omega
      have h1 : 1 ≤ arr.length / (nt - 1).toNat := by
        rw [Nat.le_div_iff_mul_le hpos]
        omega
      omega
  · intro hst hnt hdl
    have hden : (0 : ℚ) < (nt : ℚ) - 1 := by
      have : (2 : ℚ) ≤ (nt : ℚ) := by exact_mod_cast hnt
      linarith
    have hstep : (0 : ℚ) < (dom.getD (dom.length - 1) 0 - dom.getD 0 0) / ((nt : ℚ) - 1) :=
      div_pos (by linarith) hden
    have hunfold : get_ticks st dom none nt
        = jsRangeQ (dom.getD 0 0)
            (dom.getD (dom.length - 1) 0
              + ((dom.getD (dom.length - 1) 0 - dom.getD 0 0) / ((nt : ℚ) - 1)) * (1 / 2))
            ((dom.getD (dom.length - 1) 0 - dom.getD 0 0) / ((nt : ℚ) - 1)) := by
      simp only [get_ticks]
      rw [if_neg hst, if_neg (by omega)]
    rw [hunfold]
    constructor
    · intro k hk
      exact jsRangeQ_getD _ _ _ (ne_of_gt hstep) k hk
    · intro k
      exact jsRangeQ_length_iff _ _ _ hstep k

/-- Witness for C4 at concrete inputs. -/
theorem c4_get_ticks_subsampling_witness :
    get_ticks ScaleType.linear [] none 1 = []
    ∧ get_ticks ScaleType.linear [] (some [1, 2]) 3 = [1, 2]
    ∧ get_ticks ScaleType.ordinal [5, 6] none 3 = [5, 6]
    ∧ get_ticks ScaleType.linear [] (some [1, 2, 3, 4, 5]) 3
        = (jsRangeNat ([1, 2, 3, 4, 5] : List ℚ).length
            (([1, 2, 3, 4, 5] : List ℚ).length / ((3 : ℤ) - 1).toNat)).map
            (fun i => ([1, 2, 3, 4, 5] : List ℚ).getD i 0)
    ∧ ((4 : ℕ) ∈ jsRangeNat ([1, 2, 3, 4, 5] : List ℚ).length
          (([1, 2, 3, 4, 5] : List ℚ).length / ((3 : ℤ) - 1).toNat)
        ↔ ((∃ k, (4 : ℕ) = k * (([1, 2, 3, 4, 5] : List ℚ).length / ((3 : ℤ) - 1).toNat))
            ∧ (4 : ℕ) < ([1, 2, 3, 4, 5] : List ℚ).length))
    ∧ ((0 : ℕ) < (get_ticks ScaleType.linear [0, 10] none 3).length
        ↔ ([0, 10] : List ℚ).getD 0 0
            + (0 : ℚ) * ((([0, 10] : List ℚ).getD (([0, 10] : List ℚ).length - 1) 0
                - ([0, 10] : List ℚ).getD 0 0) / ((3 : ℚ) - 1))
          < ([0, 10] : List ℚ).getD (([0, 10] : List ℚ).length - 1) 0
            + ((([0, 10] : List ℚ).getD (([0, 10] : List ℚ).length - 1) 0
                - ([0, 10] : List ℚ).getD 0 0) / ((3 : ℚ) - 1)) * (1 / 2)) := by
  refine ⟨(c4_get_ticks_subsampling ScaleType.linear [] none 1).1 (by norm_num),
    (c4_get_ticks_subsampling ScaleType.linear [] (some [1, 2]) 3).2.1 [1, 2] (by simp) (by norm_num) (by norm_num),
    (c4_get_ticks_subsampling ScaleType.ordinal [5, 6] none 3).2.2.1 rfl (by norm_num) (by norm_num),
    ((c4_get_ticks_subsampling ScaleType.linear [] (some [1, 2, 3, 4, 5]) 3).2.2.2.1 [1, 2, 3, 4, 5]
      (by simp) (by norm_num) (by norm_num)).1,
    ((c4_get_ticks_subsampling ScaleType.linear [] (some [1, 2, 3, 4, 5]) 3).2.2.2.1 [1, 2, 3, 4, 5]
      (by simp) (by norm_num) (by norm_num)).2 4,
    ((c4_get_ticks_subsampling ScaleType.linear [0, 10] none 3).2.2.2.2 (by simp) (by norm_num)
      (by norm_num [List.getD])).2 0⟩

/-! ## TickFormatter.js: `set_tick_values` (adaptive log-axis tick selection) -/

/-- Mathematical `a mod s` on rationals (`a - s·⌊a/s⌋`), used to state the
spec's "`|log10(t)| mod s`". -/
def qmod (a s : ℚ) : ℚ := a - s * ⌊a / s⌋

theorem abs_jsRem (l s : ℚ) (hs : 0 < s) : |jsRem l s| = qmod |l| s := by
  unfold jsRem jsTrunc qmod
  rcases le_or_lt 0 l with hl | hl
  · rw [if_pos (div_nonneg hl hs.le)]
    have hfl : s * (⌊l / s⌋ : ℚ) ≤ l := by
      have h1 := Int.floor_le (l / s)
      have h2 := mul_le_mul_of_nonneg_left h1 hs.le
      rwa [mul_div_cancel₀ l (ne_of_gt hs)] at h2
    rw [abs_of_nonneg hl, abs_of_nonneg (by linarith)]
  · rw [if_neg (not_le.mpr (div_neg_of_neg_of_pos hl hs))]
    have hcl : l ≤ s * (⌈l / s⌉ : ℚ) := by
      have h1 := Int.le_ceil (l / s)
      have h2 := mul_le_mul_of_nonneg_left h1 hs.le
      rwa [mul_div_cancel₀ l (ne_of_gt hs)] at h2
    rw [abs_of_neg hl, abs_of_nonpos (by linarith)]
    rw [neg_div, Int.floor_neg]
    push_cast
    ring

theorem abs_jsRem_one (l : ℚ) : |jsRem l 1| = Int.fract |l| := by
  rw [abs_jsRem l 1 one_pos, Int.fract, qmod, div_one, one_mul]

theorem jsRound_pos_of_ge (q : ℚ) (h : (7 : ℚ) ≤ q) : 1 ≤ jsRound (q / 10) := by
  unfold jsRound
  rw [Int.le_floor]
  push_cast
  linarith

/-- The axis state read by `set_tick_values`: the model's `tick_values`,
the view's `num_ticks`, the scale's type, and the d3 scale's `ticks()` and
`domain()`. -/
structure AxisState where
  tick_values : Option (List ℚ)
  num_ticks : Option ℤ
  scale_type : ScaleType
  scale_ticks : List ℚ
  scale_domain : List ℚ

/-- Embedding of `set_tick_values` (the tick list handed to
`axis.tickValues`), parametric in the real-log function `log10`.  When
`num_ticks` is set the source calls `this.get_ticks()` with no argument, so
the data array is `none` there. -/
def set_tick_values (log10 : ℚ → ℚ) (ax : AxisState) : List ℚ :=
  if (ax.tick_values.getD []).length > 0 then ax.tick_values.getD []
  else
    match ax.num_ticks with
    | some n => get_ticks ax.scale_type ax.scale_domain none n
    | none =>
      match ax.scale_type with
      | ScaleType.ordinal => ax.scale_domain
      | ScaleType.log =>
        let oom := |log10 (ax.scale_domain.getD 1 0 / ax.scale_domain.getD 0 0)|
        if oom < 2 then ax.scale_ticks
        else if oom < 7 then
          ax.scale_ticks.filter (fun t =>
            let r := |jsRem (log10 t) 1|
            decide (|r| < 1 / 1000) || decide (|r - 1| < 1 / 1000)
              || decide (|r - 30103 / 100000| < 1 / 1000)
              || decide (|r - 69897 / 100000| < 1 / 1000))
        else
          let s : ℚ := ((jsRound (oom / 10) : ℤ) : ℚ)
          ax.scale_ticks.filter (fun t =>
            let r := |jsRem (log10 t) s|
            decide (|r| < 1 / 1000) || decide (|r - s| < 1 / 1000))
      | _ => ax.scale_ticks

/-- The spec's description of the adaptive log-tick selection, in terms of
the order-of-magnitude span `oom`, the fractional part of `|log10 t|`
(branch `2 ≤ oom < 7`), and `|log10 t| mod s` with `s = round(oom/10)`
(branch `oom ≥ 7`). -/
def log_ticks_spec (log10 : ℚ → ℚ) (d0 d1 : ℚ) (allticks : List ℚ) : List ℚ :=
  let oom := |log10 (d1 / d0)|
  if oom < 2 then allticks
  else if oom < 7 then
    allticks.filter (fun t =>
      let fr := Int.fract |log10 t|
      decide (|fr| < 1 / 1000) || decide (|fr - 1| < 1 / 1000)
        || decide (|fr - 30103 / 100000| < 1 / 1000)
        || decide (|fr - 69897 / 100000| < 1 / 1000))
  else
    let s : ℚ := ((jsRound (oom / 10) : ℤ) : ℚ)
    allticks.filter (fun t =>
      let m := qmod |log10 t| s
      decide (|m| < 1 / 1000) || decide (|m - s| < 1 / 1000))

/-- Claim C1: for every log-scale axis with no explicit `tick_values` and no
`num_ticks`, `set_tick_values` selects from the scale's ticks according to
`oom = |log10(domain[1]/domain[0])|`: all ticks when `oom < 2`; for
`2 ≤ oom < 7` exactly those ticks whose fractional part of `|log10 t|` is
within 0.001 of 0, 1, 0.30103 or 0.69897; otherwise, with
`s = round(oom/10)`, exactly those with `|log10 t| mod s` within 0.001 of 0
or of `s`. -/
theorem c1_adaptive_log_tick_selection :
    ∀ (log10 : ℚ → ℚ) (ax : AxisState),
      (ax.tick_values = none ∨ ax.tick_values = some []) →
      ax.num_ticks = none →
      ax.scale_type = ScaleType.log →
      set_tick_values log10 ax
        = log_ticks_spec log10 (ax.scale_domain.getD 0 0) (ax.scale_domain.getD 1 0)
            ax.scale_ticks := by
  intro log10 ax htv hnt hst
  obtain ⟨tv, nt, st, ticks, dom⟩ := ax
  simp only at htv hnt hst
  subst hnt hst
  have htv0 : (tv.getD []).length = 0 := by
    rcases htv with rfl | rfl <;> rfl
  simp only [set_tick_values, log_ticks_spec]
  rw [if_neg (by omega)]
  by_cases h2 : |log10 (dom.getD 1 0 / dom.getD 0 0)| < 2
  · rw [if_pos h2, if_pos h2]
  · rw [if_neg h2, if_neg h2]
    by_cases h7 : |log10 (dom.getD 1 0 / dom.getD 0 0)| < 7
    · rw [if_pos h7, if_pos h7]
      apply List.filter_congr
      intro t _
      rw [abs_jsRem_one]
    · rw [if_neg h7, if_neg h7]
      have hs : (0 : ℚ) < ((jsRound (|log10 (dom.getD 1 0 / dom.getD 0 0)| / 10) : ℤ) : ℚ) := by
        have h1 : (7 : ℚ) ≤ |log10 (dom.getD 1 0 / dom.getD 0 0)| := by
          linarith [not_lt.mp h7]
        have h2 := jsRound_pos_of_ge _ h1
        exact_mod_cast lt_of_lt_of_le Int.zero_lt_one h2
      apply List.filter_congr
      intro t _
      rw [abs_jsRem _ _ hs]

/-- Witness for C1: identity in place of `log10`, scale ticks `[1, 2]`,
domain `[1, 5]`. -/
theorem c1_adaptive_log_tick_selection_witness :
    set_tick_values (fun q => q) ⟨none, none, ScaleType.log, [1, 2], [1, 5]⟩
      = log_ticks_spec (fun q => q) (([1, 5] : List ℚ).getD 0 0)
          (([1, 5] : List ℚ).getD 1 0) [1, 2] :=
  c1_adaptive_log_tick_selection (fun q => q) ⟨none, none, ScaleType.log, [1, 2], [1, 5]⟩
    (Or.inl rfl) rfl rfl

/-! ## TickFormatter.js: `_get_digits`, `_linear_scale_precision` -/

/-- Embedding of `_get_digits`: `1` for zero, else `⌊log10 |x|⌋ + 1`
(`Int.log 10` is exactly `⌊log10⌋` on positive rationals). -/
def _get_digits (q : ℚ) : ℤ := if q = 0 then 1 else Int.log 10 |q| + 1

/-- Embedding of `_linear_scale_precision`.  The two guarded branches do not
cover every input; the JS function returns `undefined` on fall-through,
modelled as `none`. -/
def _linear_scale_precision (ticks : List ℚ) : Option ℤ :=
  let diff := |ticks.getD 1 0 - ticks.getD 0 0|
  let mx := max |ticks.getD 0 0| |ticks.getD (ticks.length - 1) 0|
  let max_digits := _get_digits mx
  let diff_digits := _get_digits diff
  let precision := |max_digits - diff_digits|
  if 0 ≤ max_digits ∧ 0 < diff_digits then
    (if max_digits ≤ 6 then some 0 else some (min precision 6 + 1))
  else if diff_digits ≤ 0 then
    some (min (|diff_digits| + max_digits) 6 + 1)
  else
    none

theorem log10_inv50 : Int.log 10 ((1 : ℚ) / 50) = -2 := by
  have hpos : (0 : ℚ) < 1 / 50 := by norm_num
  have hub : Int.log 10 ((1 : ℚ) / 50) < -1 := by
    rw [← Int.lt_zpow_iff_log_lt (by norm_num) hpos]
    rw [show ((10 : ℕ) : ℚ) ^ (-1 : ℤ) = 1 / 10 by norm_num]
    norm_num
  have hlb : -2 ≤ Int.log 10 ((1 : ℚ) / 50) := by
    rw [← Int.zpow_le_iff_le_log (by norm_num) hpos]
    rw [show ((10 : ℕ) : ℚ) ^ (-2 : ℤ) = 1 / 100 by norm_num]
    norm_num
  omega

theorem get_digits_one : _get_digits 1 = 1 := by
  unfold _get_digits
  rw [if_neg (by norm_num), abs_one, Int.log_one_right]
  norm_num

theorem get_digits_inv50 : _get_digits ((1 : ℚ) / 50) = -1 := by
  unfold _get_digits
  rw [if_neg (by norm_num), show |(1 : ℚ) / 50| = 1 / 50 from abs_of_pos (by norm_num),
    log10_inv50]
  norm_num

/-- On the unsorted tick list `[0.01, 1.01, 0.02]` (gap 1, both end points
below 0.1) both guards of `_linear_scale_precision` fail and the function
falls through. -/
theorem lsp_fall_through : _linear_scale_precision [1/100, 101/100, 1/50] = none := by
  simp only [_linear_scale_precision]
  rw [show ([1/100, 101/100, 1/50] : List ℚ).getD 1 0
      - ([1/100, 101/100, 1/50] : List ℚ).getD 0 0 = 1 by norm_num [List.getD]]
  rw [show (max |([1/100, 101/100, 1/50] : List ℚ).getD 0 0|
        |([1/100, 101/100, 1/50] : List ℚ).getD
          (([1/100, 101/100, 1/50] : List ℚ).length - 1) 0|) = 1 / 50 by
    norm_num [List.getD]
    rw [show |(1 : ℚ) / 100| = 1 / 100 from abs_of_pos (by norm_num),
      show |(1 : ℚ) / 50| = 1 / 50 from abs_of_pos (by norm_num)]
    exact max_eq_right (by norm_num)]
  rw [abs_one, get_digits_one, get_digits_inv50]
  norm_num

theorem get_digits_ge_one (d : ℚ) (hd1 : 1 ≤ d) : 1 ≤ _get_digits d := by
  unfold _get_digits
  rw [if_neg (by positivity), abs_of_pos (by linarith)]
  have h := (Int.zpow_le_iff_le_log (b := 10) (by norm_num) (by linarith : (0 : ℚ) < d)
    (x := 0)).mp (by rw [zpow_zero]; exact_mod_cast hd1)
  omega

theorem get_digits_le_six (mx : ℚ) (h0 : 0 < mx) (h : mx < 10 ^ (6 : ℕ)) :
    _get_digits mx ≤ 6 := by
  unfold _get_digits
  rw [if_neg (ne_of_gt h0), abs_of_pos h0]
  have h6 : mx < ((10 : ℕ) : ℚ) ^ (6 : ℤ) := by
    rw [show ((10 : ℕ) : ℚ) ^ (6 : ℤ) = 10 ^ (6 : ℕ) by norm_num]
    exact h
  have := (Int.lt_zpow_iff_log_lt (b := 10) (by norm_num) h0).mp h6
  omega

theorem get_digits_sub_one_le (diff mx : ℚ) (hd : 0 < diff) (hle : diff ≤ 2 * mx) :
    _get_digits diff - 1 ≤ _get_digits mx := by
  have hmx : 0 < mx := by linarith
  unfold _get_digits
  rw [if_neg (ne_of_gt hd), if_neg (ne_of_gt hmx), abs_of_pos hd, abs_of_pos hmx]
  have h1 : ((10 : ℕ) : ℚ) ^ Int.log 10 diff ≤ diff :=
    Int.zpow_log_le_self (by norm_num) hd
  have h2 : ((10 : ℕ) : ℚ) ^ (Int.log 10 diff - 1) ≤ mx := by
    have e : ((10 : ℕ) : ℚ) ^ (Int.log 10 diff - 1)
        = ((10 : ℕ) : ℚ) ^ Int.log 10 diff / 10 := by
      rw [zpow_sub₀ (by norm_num : ((10 : ℕ) : ℚ) ≠ 0)]
      norm_num
    rw [e, div_le_iff₀ (by norm_num : (0 : ℚ) < 10)]
    linarith
  have h3 := (Int.zpow_le_iff_le_log (by norm_num) hmx).mp h2
  omega

/-- For sorted ticks (`t₀ < t₁ ≤ t_last`) both together imply the gap is at
most twice the largest end-point magnitude, so the uncovered branch is
unreachable and the result lies in `{0,…,7}`. -/
theorem lsp_total_sorted :
    ∀ ticks : List ℚ,
      ticks.getD 0 0 < ticks.getD 1 0 →
      ticks.getD 1 0 ≤ ticks.getD (ticks.length - 1) 0 →
      ∃ v, _linear_scale_precision ticks = some v ∧ 0 ≤ v ∧ v ≤ 7 := by
  intro ticks h01 h1l
  simp only [_linear_scale_precision]
  have hd : (0 : ℚ) < ticks.getD 1 0 - ticks.getD 0 0 := by linarith
  rw [abs_of_pos hd]
  set t0 := ticks.getD 0 0 with ht0
  set t1 := ticks.getD 1 0 with ht1
  set tl := ticks.getD (ticks.length - 1) 0 with htl
  have hmxb : t1 - t0 ≤ 2 * max |t0| |tl| := by
    have ha := le_abs_self tl
    have hb := neg_abs_le t0
    have h1 : |t0| ≤ max |t0| |tl| := le_max_left _ _
    have h2 : |tl| ≤ max |t0| |tl| := le_max_right _ _
    linarith
  have hkey := get_digits_sub_one_le (t1 - t0) (max |t0| |tl|) hd hmxb
  by_cases hdd : 0 < _get_digits (t1 - t0)
  · rw [if_pos ⟨by omega, hdd⟩]
    by_cases h6 : _get_digits (max |t0| |tl|) ≤ 6
    · rw [if_pos h6]
      exact ⟨0, rfl, by norm_num, by norm_num⟩
    · rw [if_neg h6]
      have hab : 0 ≤ |_get_digits (max |t0| |tl|) - _get_digits (t1 - t0)| := abs_nonneg _
      have hmin1 : min |_get_digits (max |t0| |tl|) - _get_digits (t1 - t0)| 6 ≤ 6 :=
        min_le_right _ _
      have hmin2 : 0 ≤ min |_get_digits (max |t0| |tl|) - _get_digits (t1 - t0)| 6 :=
        le_min hab (by norm_num)
      exact ⟨_, rfl, by omega, by omega⟩
  · rw [if_neg (fun hc => hdd hc.2), if_pos (by omega)]
    have habs : |_get_digits (t1 - t0)| = -(_get_digits (t1 - t0)) :=
      abs_of_nonpos (by omega)
    have hmin1 : min (|_get_digits (t1 - t0)| + _get_digits (max |t0| |tl|)) 6 ≤ 6 :=
      min_le_right _ _
    have hmin2 : -1 ≤ min (|_get_digits (t1 - t0)| + _get_digits (max |t0| |tl|)) 6 :=
      le_min (by omega) (by norm_num)
    exact ⟨_, rfl, by omega, by omega⟩

/-- Claim C9: `_linear_scale_precision` is partial — on a tick list with gap
at least 1 but both end points below 0.1 (necessarily unsorted) neither
guard holds and the JS function returns `undefined` — while under the
precondition that the ticks are sorted increasingly with
`ticks[0] < ticks[1]` the uncovered branch is unreachable and the result is
always a value in `{0, …, 7}`. -/
theorem c9_linear_scale_precision_partiality :
    _linear_scale_precision [1/100, 101/100, 1/50] = none
    ∧ (∀ ticks : List ℚ,
        ticks.getD 0 0 < ticks.getD 1 0 →
        ticks.getD 1 0 ≤ ticks.getD (ticks.length - 1) 0 →
        ∃ v, _linear_scale_precision ticks = some v ∧ 0 ≤ v ∧ v ≤ 7) :=
  ⟨lsp_fall_through, lsp_total_sorted⟩

/-- Witness for C9 on the sorted list `[0, 1]`. -/
theorem c9_linear_scale_precision_partiality_witness :
    ∃ v, _linear_scale_precision [0, 1] = some v ∧ 0 ≤ v ∧ v ≤ 7 :=
  c9_linear_scale_precision_partiality.2 [0, 1] (by norm_num [List.getD])
    (by norm_num [List.getD])

/-! ## TickFormatter.js: `_replace_trailing_zeros`, `get_format_func` -/

/-- One application of the regex `(\.[0-9]*?)0+$` followed by `\.$`-removal
on a character list: when the text ends in a run of zeros lying in an
all-digit suffix after a decimal point, the run is stripped; a then-trailing
decimal point is removed. -/
def fracStrip (t : List Char) : List Char :=
  let rev := t.reverse
  let suffixRev := rev.takeWhile (fun c => c != '.')
  let t1 :=
    if t.contains '.' && suffixRev.all Char.isDigit && rev.head? == some '0' then
      (rev.dropWhile (fun c => c == '0')).reverse
    else t
  if t1.reverse.head? == some '.' then t1.dropLast else t1

/-- Embedding of `_replace_trailing_zeros`: the part before the first `e`
(if any) has its trailing fractional zeros stripped; the exponent part is
kept verbatim. -/
def _replace_trailing_zeros (str : String) : String :=
  let cs := str.toList
  match cs.findIdx? (fun c => c == 'e') with
  | none => String.mk (fracStrip cs)
  | some i => String.mk (fracStrip (cs.take i) ++ cs.drop i)

/-- The source's case-insensitive regex replacement deleting every `-`, `.`,
`e` (and `E`) from the formatted string. -/
def stripFormatChars (s : String) : String :=
  String.mk (s.toList.filter (fun c => !(c == '-' || c == '.' || c == 'e' || c == 'E')))

/-- The mantissa of an exponentially formatted string: the characters before
the `e`. -/
def mantissa (s : String) : String :=
  String.mk (s.toList.takeWhile (fun c => c != 'e'))

/-- The source's `fmt_string`: empty for the generic precision `-1`,
otherwise `"." + prec`. -/
def fmt_string (prec : ℤ) : String := if prec = -1 then "" else "." ++ toString prec

/-- Embedding of `get_format_func`, parametric in the d3 formatter
`d3format fmt x`. -/
def get_format_func (d3format : String → ℚ → String) (prec : ℤ) : ℚ → String :=
  if prec = 0 then fun number => d3format ("d") ((jsRound number : ℤ) : ℚ)
  else fun number =>
    let fs := fmt_string prec
    let str := d3format (fs ++ "g") number
    let reg_str := stripFormatChars str
    if reg_str.length < 6 then _replace_trailing_zeros str
    else if fs = "" then
      let new_str := d3format (fs ++ "e") number
      if 7 ≤ new_str.length then _replace_trailing_zeros (d3format (".6e") number)
      else _replace_trailing_zeros new_str
    else _replace_trailing_zeros (d3format (fs ++ "e") number)

/-- The spec's description of the returned formatter: `prec = 0` renders the
rounded integer in d3 `"d"` format; otherwise format with `"g"`, and when the
string stripped of `-`, `.`, `e` has 6 or more characters reformat
exponentially, falling back to `".6e"` when the generic exponential mantissa
has length at least 7, always stripping trailing zeros after the decimal
point. -/
def format_func_spec (d3format : String → ℚ → String) (prec : ℤ) : ℚ → String :=
  if prec = 0 then fun number => d3format ("d") ((jsRound number : ℤ) : ℚ)
  else fun number =>
    let fs := fmt_string prec
    let str := d3format (fs ++ "g") number
    if 6 ≤ (stripFormatChars str).length then
      (if fs = "" then
        (let new_str := d3format ("e") number
         if 7 ≤ (mantissa new_str).length then _replace_trailing_zeros (d3format (".6e") number)
         else _replace_trailing_zeros new_str)
      else _replace_trailing_zeros (d3format (fs ++ "e") number))
    else _replace_trailing_zeros str

theorem mantissa_length_le (s : String) : (mantissa s).length ≤ s.length := by
  unfold mantissa
  have h : (s.toList.takeWhile (fun c => c != 'e')).length ≤ s.toList.length :=
    (List.takeWhile_sublist _).length_le
  exact h

theorem format_func_eq (f : String → ℚ → String) (prec : ℤ)
    (hE : ∀ n : ℚ, 7 ≤ (mantissa (f ("e") n)).length) (number : ℚ) :
    get_format_func f prec number = format_func_spec f prec number := by
  unfold get_format_func format_func_spec
  by_cases h0 : prec = 0
  · rw [if_pos h0, if_pos h0]
  · rw [if_neg h0, if_neg h0]
    dsimp only
    by_cases h6 : (stripFormatChars (f (fmt_string prec ++ "g") number)).length < 6
    · have hnot : ¬ 6 ≤ (stripFormatChars (f (fmt_string prec ++ "g") number)).length := by
        omega
      rw [if_pos h6, if_neg hnot]
    · have hge : 6 ≤ (stripFormatChars (f (fmt_string prec ++ "g") number)).length := by
        omega
      rw [if_neg h6, if_pos hge]
      by_cases hfs : fmt_string prec = ""
      · rw [if_pos hfs, if_pos hfs]
        have he1 : fmt_string prec ++ "e" = "e" := by rw [hfs]; rfl
        rw [he1]
        have h7m := hE number
        have h7 : 7 ≤ (f ("e") number).length :=
          le_trans h7m (mantissa_length_le _)
        rw [if_pos h7, if_pos h7m]
      · rw [if_neg hfs, if_neg hfs]


/-- The sorted-ticks part of the (amended) claim C3: for increasing ticks
with gap at least 1 and largest end-point magnitude under `10^6`,
`_linear_scale_precision` returns 0. -/
theorem lsp_sorted_cap :
    ∀ ticks : List ℚ,
      ticks.getD 1 0 ≤ ticks.getD (ticks.length - 1) 0 →
      1 ≤ ticks.getD 1 0 - ticks.getD 0 0 →
      max |ticks.getD 0 0| |ticks.getD (ticks.length - 1) 0| < 10 ^ (6 : ℕ) →
      _linear_scale_precision ticks = some 0 := by
  intro ticks h1l hgap hmax
  simp only [_linear_scale_precision]
  have hd : (0 : ℚ) < ticks.getD 1 0 - ticks.getD 0 0 := by linarith
  rw [abs_of_pos hd]
  set t0 := ticks.getD 0 0 with ht0
  set t1 := ticks.getD 1 0 with ht1
  set tl := ticks.getD (ticks.length - 1) 0 with htl
  have hmxb : t1 - t0 ≤ 2 * max |t0| |tl| := by
    have ha := le_abs_self tl
    have hb := neg_abs_le t0
    have h1 : |t0| ≤ max |t0| |tl| := le_max_left _ _
    have h2 : |tl| ≤ max |t0| |tl| := le_max_right _ _
    linarith
  have hmx0 : (0 : ℚ) < max |t0| |tl| := by linarith
  have hdd : 1 ≤ _get_digits (t1 - t0) := get_digits_ge_one _ hgap
  have hmd := get_digits_sub_one_le (t1 - t0) (max |t0| |tl|) hd hmxb
  have h6 : _get_digits (max |t0| |tl|) ≤ 6 := get_digits_le_six _ hmx0 hmax
  rw [if_pos ⟨by omega, by omega⟩, if_pos h6]

/-- Counterexample to claim C3 as stated: the tick list
`[0.01, 1.01, 0.02]` has tick gap 1 and largest end-point magnitude 0.02
(zero integer digits, hence at most 6), yet `_linear_scale_precision` does
not return 0 — it falls through and returns `undefined`. -/
theorem c3_sig_digit_cap_counterexample :
    1 ≤ |([1/100, 101/100, 1/50] : List ℚ).getD 1 0
        - ([1/100, 101/100, 1/50] : List ℚ).getD 0 0|
    ∧ max |([1/100, 101/100, 1/50] : List ℚ).getD 0 0|
        |([1/100, 101/100, 1/50] : List ℚ).getD
          (([1/100, 101/100, 1/50] : List ℚ).length - 1) 0|
      < 10 ^ (6 : ℕ)
    ∧ _linear_scale_precision [1/100, 101/100, 1/50] ≠ some 0 := by
  refine ⟨?_, ?_, ?_⟩
  · rw [show ([1/100, 101/100, 1/50] : List ℚ).getD 1 0
        - ([1/100, 101/100, 1/50] : List ℚ).getD 0 0 = 1 by norm_num [List.getD]]
    norm_num
  · rw [show (max |([1/100, 101/100, 1/50] : List ℚ).getD 0 0|
        |([1/100, 101/100, 1/50] : List ℚ).getD
          (([1/100, 101/100, 1/50] : List ℚ).length - 1) 0|) = 1 / 50 by
      norm_num [List.getD]
      rw [show |(1 : ℚ) / 100| = 1 / 100 from abs_of_pos (by norm_num),
        show |(1 : ℚ) / 50| = 1 / 50 from abs_of_pos (by norm_num)]
      exact max_eq_right (by norm_num)]
    norm_num
  · rw [lsp_fall_through]
    simp

/-- Claim C3 (amended: the formatter description is proved against any d3
formatter whose generic exponential output has a mantissa of at least 7
characters — true of d3's default 6-digit exponential precision — and the
integer-precision statement additionally requires the tick list to be sorted
increasingly, without which the precision function falls through, cf. C9):
`get_format_func` renders exactly as the spec describes (prec 0 → rounded
integer in `"d"` format; otherwise `"g"`, reformatted exponentially when the
stripped string has ≥ 6 characters, with the `".6e"` fallback, always
stripping trailing fractional zeros), and for every sorted tick list with
tick gap ≥ 1 and largest end-point magnitude under `10^6`,
`_linear_scale_precision` returns 0, so linear ticks are formatted as
integers. -/
theorem c3_sig_digit_cap_amended :
    (∀ (f : String → ℚ → String) (prec : ℤ),
      (∀ n : ℚ, 7 ≤ (mantissa (f ("e") n)).length) →
      ∀ number : ℚ, get_format_func f prec number = format_func_spec f prec number)
    ∧ (∀ ticks : List ℚ,
        ticks.getD 1 0 ≤ ticks.getD (ticks.length - 1) 0 →
        1 ≤ ticks.getD 1 0 - ticks.getD 0 0 →
        max |ticks.getD 0 0| |ticks.getD (ticks.length - 1) 0| < 10 ^ (6 : ℕ) →
        _linear_scale_precision ticks = some 0) :=
  ⟨format_func_eq, lsp_sorted_cap⟩

/-- Witness for C3: a constant d3 formatter with an 8-character mantissa, and
the sorted tick list `[0, 1]`. -/
theorem c3_sig_digit_cap_amended_witness :
    get_format_func (fun _ _ => "1.2345678e+0") (-1) 0
      = format_func_spec (fun _ _ => "1.2345678e+0") (-1) 0
    ∧ _linear_scale_precision [0, 1] = some 0 := by
  refine ⟨c3_sig_digit_cap_amended.1 (fun _ _ => "1.2345678e+0") (-1)
    (fun n => ?_) 0, c3_sig_digit_cap_amended.2 [0, 1] ?_ ?_ ?_⟩
  · show 7 ≤ (mantissa "1.2345678e+0").length
    decide
  · norm_num [List.getD]
  · norm_num [List.getD]
  · rw [show (max |([0, 1] : List ℚ).getD 0 0|
        |([0, 1] : List ℚ).getD (([0, 1] : List ℚ).length - 1) 0|) = 1 by
      norm_num [List.getD]]
    norm_num
